import Mathlib

/-!
# Verification of the blitz11 indexing core (src/blitz11.hpp)

Shallow embedding of the dope-vector layout model, the offset engine
`index_diff`, the `MemoryBlock` byte accessor `index_bytes`, the element
accessor `index`, and the two array façades `GeneralArray` and `Array`
(the fixed-rank one is named `ArrayFixed` here because `Array` is taken
by Lean's prelude).

Modelling conventions:
- machine integers (`IndexT`, `long`, `ptrdiff_t`) are `Int`; sizes
  (`size_t`, `rank`) are `Nat`;
- the C++ diagnostic callback `RangeErrorFn` is side-effecting; we model
  each invocation by recording its argument tuple in a returned list, so
  every embedded operation returns `(value, list of diagnostic calls)`;
- the `RangeErrorFn const *range_error` pointer parameter is modelled by
  a `Bool` named `range_error` standing for "the pointer is non-null";
  the C++ run-time test `if (range_error)` becomes a test of that Bool;
- addresses are modelled as integers (`MemoryBlock.base : Int`), so
  "returns base + diff_bytes" is integer addition.
-/

/-- One argument tuple of an invocation of the diagnostic callback.
The field names follow the declared signature
`RangeErrorFn = std::function<void (std::string const &type, int idim,
long low, long high, long index)>`: the field records what was passed in
the POSITION so declared, whatever the call site actually put there. -/
structure RangeCall where
  type : String
  idim : Nat
  low : Int
  high : Int
  index : Int
deriving DecidableEq, Repr

/-- `Dope` from src/blitz11.hpp: `range[0]` = `low`, `range[1]` = `high`
(the half-open `[low, high)` index range), plus the signed `stride`. -/
structure Dope where
  low : Int
  high : Int
  stride : Int
deriving DecidableEq, Repr

instance : Inhabited Dope := ⟨⟨0, 0, 0⟩⟩

/-- The loop body of `index_diff`, iterating `i = i, i+1, ..., i+n-1`
(`n` is the number of remaining iterations, so the full loop is
`i = 0, n = rank`).  Per iteration, matching the C++ exactly:
if the callback is present and `index[i] < dopes[i].range[0] ||
index[i] >= dopes[i].range[1]`, it invokes
`(*range_error)("Indexing", i, index[i], range[0], range[1])`
(note: the call site passes the offending index in the `low` position
and the bounds in the `high`/`index` positions); then it accumulates
`diff += index[i] * dopes[i].stride` unconditionally. -/
def index_diff_loop (dopes : List Dope) (index : List Int)
    (range_error : Bool) : Nat → Nat → Int × List RangeCall
  | _, 0 => (0, [])
  | i, n + 1 =>
    let d := dopes.getD i default
    let x := index.getD i 0
    let here : List RangeCall :=
      if range_error then
        if x < d.low ∨ x ≥ d.high then
          [⟨"Indexing", i, x, d.low, d.high⟩]
        else []
      else []
    let rest := index_diff_loop dopes index range_error (i + 1) n
    (x * d.stride + rest.1, here ++ rest.2)

/-- `index_diff` from src/blitz11.hpp (lines 119–135): the offset engine.
Returns the accumulated `ptrdiff_t diff` together with the list of
diagnostic invocations made during the loop, in program order. -/
def index_diff (dopes : List Dope) (index : List Int) (rank : Nat)
    (range_error : Bool) : Int × List RangeCall :=
  index_diff_loop dopes index range_error 0 rank

/-- `MemoryBlock` from src/blitz11.hpp: a base address and a byte size.
(The shared-ptr ownership bookkeeping plays no role in the indexing
claims and is not modelled.) -/
structure MemoryBlock where
  base : Int
  size_bytes : Nat
deriving DecidableEq, Repr

/-- `MemoryBlock::index_bytes` (lines 100–108): if the callback is
present and `diff_bytes < 0 || diff_bytes >= size_bytes`, invokes
`(*range_error)("Memory", 0, diff_bytes, 0, size_bytes)` (note: the
call site passes the offset in the `low` position, `0` in the `high`
position and the size in the `index` position); then it returns
`base + diff_bytes` unconditionally. -/
def MemoryBlock.index_bytes (m : MemoryBlock) (diff_bytes : Int)
    (range_error : Bool) : Int × List RangeCall :=
  let here : List RangeCall :=
    if range_error then
      if diff_bytes < 0 ∨ diff_bytes ≥ (m.size_bytes : Int) then
        [⟨"Memory", 0, diff_bytes, 0, (m.size_bytes : Int)⟩]
      else []
    else []
  (m.base + diff_bytes, here)

/-- The free function `index<ValueT, IndexT>` (lines 137–151): computes
the element offset via `index_diff`, scales it by `sizeof(ValueT)`
(modelled by the parameter `sizeof_value`), resolves it to an address
via `MemoryBlock::index_bytes`, and returns that address (the
`reinterpret_cast` back to `ValueT*` does not change the address). -/
def index (memory : MemoryBlock) (dopes : List Dope) (idx : List Int)
    (rank : Nat) (sizeof_value : Nat) (range_error : Bool) :
    Int × List RangeCall :=
  let diff := index_diff dopes idx rank range_error
  let loc := memory.index_bytes (diff.1 * (sizeof_value : Nat)) range_error
  (loc.1, diff.2 ++ loc.2)

/-- `GeneralArray<ValueT, IndexT>` (lines 155–172): the runtime-rank
array view.  `sizeof_value` models `sizeof(ValueT)`. -/
structure GeneralArray where
  memory : MemoryBlock
  dopes : List Dope
  sizeof_value : Nat
deriving DecidableEq, Repr

/-- `GeneralArray::rank()`: the length of the dope vector. -/
def GeneralArray.rank (a : GeneralArray) : Nat :=
  a.dopes.length

/-- `GeneralArray::operator[](std::vector<IndexT> const &, RangeErrorFn
const *)`: delegates to `index(_memory, &_dopes[0], &index[0], rank(),
range_error)` — reading exactly `rank()` entries starting at the given
index sequence, with no arity check of any kind. -/
def GeneralArray.bracket (a : GeneralArray) (idx : List Int)
    (range_error : Bool) : Int × List RangeCall :=
  index a.memory a.dopes idx a.rank a.sizeof_value range_error

/-- `Array<ValueT, RANK, IndexT>` (lines 175–188): the fixed-rank array
view; `RANK` is the compile-time rank parameter.  (Named `ArrayFixed`
because `Array` is taken by Lean's prelude.) -/
structure ArrayFixed (RANK : Nat) where
  memory : MemoryBlock
  dopes : List Dope
  sizeof_value : Nat
deriving DecidableEq, Repr

/-- `Array::rank()`: returns the compile-time constant `RANK`. -/
def ArrayFixed.rank {RANK : Nat} (_a : ArrayFixed RANK) : Nat :=
  RANK

/-- `Array::operator[]`: delegates to `index(_memory, &_dopes[0], index,
rank(), range_error)` with `rank() = RANK`. -/
def ArrayFixed.bracket {RANK : Nat} (a : ArrayFixed RANK) (idx : List Int)
    (range_error : Bool) : Int × List RangeCall :=
  index a.memory a.dopes idx a.rank a.sizeof_value range_error

-- ---------------------------------------------------------------------
-- Helper lemmas about the offset loop
-- ---------------------------------------------------------------------

/-- The value accumulated by the loop starting at `i` for `n` iterations
is the sum over those iterations of `index[i+j] * dopes[i+j].stride`. -/
theorem index_diff_loop_fst (dopes : List Dope) (idx : List Int)
    (c : Bool) :
    ∀ (n i : Nat), (index_diff_loop dopes idx c i n).1
      = ∑ j in Finset.range n,
          idx.getD (i + j) 0 * (dopes.getD (i + j) default).stride := by
  intro n
  induction n with
  | zero => intro i; simp [index_diff_loop]
  | succ n ih =>
    intro i
    rw [Finset.sum_range_succ']
    simp only [index_diff_loop]
    rw [ih (i + 1)]
    have h : ∀ j : Nat, i + 1 + j = i + (j + 1) := fun j => by omega
    simp only [h, Nat.add_zero]
    ring

/-- The offset computed by `index_diff` is `Σ_{i<rank} index[i] *
dopes[i].stride`, whatever the checking setting. -/
theorem index_diff_fst (dopes : List Dope) (idx : List Int) (rank : Nat)
    (c : Bool) :
    (index_diff dopes idx rank c).1
      = ∑ i in Finset.range rank,
          idx.getD i 0 * (dopes.getD i default).stride := by
  rw [index_diff, index_diff_loop_fst]
  exact Finset.sum_congr rfl fun j _ => by rw [Nat.zero_add]

-- ---------------------------------------------------------------------
-- C1
-- ---------------------------------------------------------------------

/-- **C1.** For every dope sequence of length `rank` and every index
vector of the same length whose entries all lie within their dimension's
`[low, high)` range, the offset computed by `index_diff` equals
`Σ_{i<rank} index[i] * dopes[i].stride` (for any checking setting). -/
theorem C1_index_diff_offset_sum (dopes : List Dope) (idx : List Int)
    (rank : Nat) (c : Bool)
    (hd : dopes.length = rank) (hi : idx.length = rank)
    (hin : ∀ i, i < rank →
      (dopes.getD i default).low ≤ idx.getD i 0 ∧
      idx.getD i 0 < (dopes.getD i default).high) :
    (index_diff dopes idx rank c).1
      = ∑ i in Finset.range rank,
          idx.getD i 0 * (dopes.getD i default).stride :=
  index_diff_fst dopes idx rank c

/-- Witness for C1, at the spec's concrete example: rank-2 layout with
extents (3,4) and row-major strides (4,1); index (1,2) yields linear
offset 6. -/
theorem C1_witness :
    ([Dope.mk 0 3 4, Dope.mk 0 4 1].length = 2) ∧
    ([(1 : Int), 2].length = 2) ∧
    (index_diff [Dope.mk 0 3 4, Dope.mk 0 4 1] [1, 2] 2 false).1
      = ∑ i in Finset.range 2,
          [(1 : Int), 2].getD i 0
            * ([Dope.mk 0 3 4, Dope.mk 0 4 1].getD i default).stride ∧
    (index_diff [Dope.mk 0 3 4, Dope.mk 0 4 1] [1, 2] 2 false).1 = 6 := by
  refine ⟨rfl, rfl, ?_, by decide⟩
  exact C1_index_diff_offset_sum [Dope.mk 0 3 4, Dope.mk 0 4 1] [1, 2] 2
    false rfl rfl (by decide)

-- ---------------------------------------------------------------------
-- C2 / C3: argument order at the diagnostic call sites
-- ---------------------------------------------------------------------

/-- **C2.** The claim says a bounds violation invokes the diagnostic with
`("Indexing", dimension, low, high, offending_index)` in that order, so
index 10 on a rank-1 extent-10 dimension would produce
`("Indexing", 0, 0, 10, 10)`.  The code as written calls
`(*range_error)("Indexing", i, index[i], range[0], range[1])`, i.e. it
passes the offending index in the `low` position and the two bounds in
the `high` and `index` positions, contradicting the declared parameter
order of `RangeErrorFn`.  Evaluating the code at the claim's own
example: the single diagnostic call carries `(10, 0, 10)` in the last
three positions, not `(0, 10, 10)`. -/
theorem C2_indexing_diagnostic_args_swapped :
    index_diff [Dope.mk 0 10 1] [10] 1 true
      = (10, [RangeCall.mk "Indexing" 0 10 0 10])
    ∧ index_diff [Dope.mk 0 10 1] [10] 1 true
      ≠ (10, [RangeCall.mk "Indexing" 0 0 10 10]) := by
  decide

/-- **C3.** The claim says the byte-access check invokes the diagnostic
with `("Memory", 0, low = 0, high = size_in_bytes, index = offset)` and
in all cases returns `base_address + offset`.  The code's call is
`(*range_error)("Memory", 0, diff_bytes, 0, size_bytes)`: the offset
lands in the `low` position, `0` in the `high` position and the size in
the `index` position, contradicting the declared parameter order of
`RangeErrorFn`.  Evaluating at offset 12 on a 10-byte block with base 0:
the returned address is `0 + 12` as claimed, but the diagnostic call
carries `(12, 0, 10)` in the last three positions, not `(0, 10, 12)`. -/
theorem C3_memory_diagnostic_args_swapped :
    (MemoryBlock.mk 0 10).index_bytes 12 true
      = (12, [RangeCall.mk "Memory" 0 12 0 10])
    ∧ (MemoryBlock.mk 0 10).index_bytes 12 true
      ≠ (12, [RangeCall.mk "Memory" 0 0 10 12])
    ∧ (MemoryBlock.mk 0 10).index_bytes 5 true = (5, []) := by
  decide

-- ---------------------------------------------------------------------
-- C4 / C10
-- ---------------------------------------------------------------------

/-- **C4.** A detected out-of-range index never alters control flow:
even with the diagnostic present (`range_error = true`), `index_diff`
still accumulates every dimension's term and returns the full sum
`Σ index[i] * stride[i]`, and `index_bytes` still returns
`base + diff_bytes`; both are total functions, so no error unwinds. -/
theorem C4_diagnostics_do_not_alter_result (dopes : List Dope)
    (idx : List Int) (rank : Nat) (m : MemoryBlock) (off : Int) :
    (index_diff dopes idx rank true).1
      = ∑ i in Finset.range rank,
          idx.getD i 0 * (dopes.getD i default).stride
    ∧ (m.index_bytes off true).1 = m.base + off :=
  ⟨index_diff_fst dopes idx rank true, rfl⟩

/-- With the callback absent, the loop makes no diagnostic calls. -/
theorem index_diff_loop_snd_false (dopes : List Dope) (idx : List Int) :
    ∀ (n i : Nat), (index_diff_loop dopes idx false i n).2 = [] := by
  intro n
  induction n with
  | zero => intro i; simp [index_diff_loop]
  | succ n ih => intro i; simp [index_diff_loop, ih (i + 1)]

/-- **C10.** When no diagnostic callback is supplied (`range_error` is
null, modelled as `range_error = false`), no range validation of any
kind is performed: `index_diff` returns `Σ index[i] * stride[i]` with an
empty diagnostic log for every index vector, including out-of-range
ones, and `index_bytes` returns `base + diff_bytes` with an empty log
for every offset.  The selection is the run-time test
`if (range_error)`, modelled as the test on the `range_error`
argument. -/
theorem C10_null_callback_means_no_checking (dopes : List Dope)
    (idx : List Int) (rank : Nat) (m : MemoryBlock) (off : Int) :
    index_diff dopes idx rank false
      = (∑ i in Finset.range rank,
          idx.getD i 0 * (dopes.getD i default).stride, [])
    ∧ m.index_bytes off false = (m.base + off, []) := by
  constructor
  · exact Prod.ext (index_diff_fst dopes idx rank false)
      (index_diff_loop_snd_false dopes idx rank 0)
  · rfl

-- ---------------------------------------------------------------------
-- C5: GeneralArray performs no arity check
-- ---------------------------------------------------------------------

/-- The loop reads only positions `< i + n` of the index sequence, so
appending entries beyond them changes nothing. -/
theorem index_diff_loop_append (dopes : List Dope) (idx extra : List Int)
    (c : Bool) :
    ∀ (n i : Nat), i + n ≤ idx.length →
      index_diff_loop dopes (idx ++ extra) c i n
        = index_diff_loop dopes idx c i n := by
  intro n
  induction n with
  | zero => intro i _; rfl
  | succ n ih =>
    intro i h
    have hi : i < idx.length := by omega
    simp only [index_diff_loop]
    rw [List.getD_append _ _ _ _ hi, ih (i + 1) (by omega)]

/-- **C5 (counterexample).** The claim says every indexing call whose
index-sequence length differs from `rank()` fails with a `RankMismatch`
failure and is not delegated to the offset engine.  The code contains no
arity check at all: on a rank-1 `GeneralArray`, a length-2 index
sequence is delegated to the offset engine, which reads the first
`rank()` entries and returns a normal address — the same one the
length-1 prefix yields. -/
theorem C5_counterexample_no_rank_check :
    GeneralArray.rank ⟨⟨0, 80⟩, [⟨0, 10, 1⟩], 8⟩ = 1
    ∧ [(5 : Int), 7].length ≠ GeneralArray.rank ⟨⟨0, 80⟩, [⟨0, 10, 1⟩], 8⟩
    ∧ GeneralArray.bracket ⟨⟨0, 80⟩, [⟨0, 10, 1⟩], 8⟩ [5, 7] false
        = GeneralArray.bracket ⟨⟨0, 80⟩, [⟨0, 10, 1⟩], 8⟩ [5] false
    ∧ GeneralArray.bracket ⟨⟨0, 80⟩, [⟨0, 10, 1⟩], 8⟩ [5, 7] false
        = (40, []) := by
  decide

/-- **C5 (amended).** `GeneralArray` indexing performs no arity check:
every call is delegated to the offset engine, which reads exactly the
first `rank()` entries of the index sequence, so entries beyond
`rank()` are silently ignored and no `RankMismatch` failure exists. -/
theorem C5_bracket_ignores_excess_entries (a : GeneralArray)
    (idx extra : List Int) (c : Bool) (h : idx.length = a.rank) :
    a.bracket (idx ++ extra) c = a.bracket idx c := by
  unfold GeneralArray.bracket index index_diff
  rw [index_diff_loop_append a.dopes idx extra c a.rank 0 (by omega)]

/-- Witness for C5 (amended): concrete rank-1 array, excess entry
ignored. -/
theorem C5_witness :
    ([(5 : Int)].length = GeneralArray.rank ⟨⟨0, 80⟩, [⟨0, 10, 1⟩], 8⟩)
    ∧ GeneralArray.bracket ⟨⟨0, 80⟩, [⟨0, 10, 1⟩], 8⟩ ([5] ++ [9]) true
        = GeneralArray.bracket ⟨⟨0, 80⟩, [⟨0, 10, 1⟩], 8⟩ [5] true :=
  ⟨rfl, C5_bracket_ignores_excess_entries ⟨⟨0, 80⟩, [⟨0, 10, 1⟩], 8⟩
    [5] [9] true rfl⟩

-- ---------------------------------------------------------------------
-- C9: the two façades share the offset algorithm
-- ---------------------------------------------------------------------

/-- **C9.** The runtime-rank and fixed-rank array views compute element
locations by the same single algorithm: over the same memory block, dope
sequence of length `RANK`, index vector of length `RANK` and diagnostic
setting, `GeneralArray` indexing and `Array<ValueT, RANK>` indexing
return the same address and the same diagnostic calls. -/
theorem C9_general_fixed_same_algorithm {RANK : Nat} (m : MemoryBlock)
    (dopes : List Dope) (sz : Nat) (idx : List Int) (c : Bool)
    (hd : dopes.length = RANK) (hi : idx.length = RANK) :
    GeneralArray.bracket ⟨m, dopes, sz⟩ idx c
      = ArrayFixed.bracket (⟨m, dopes, sz⟩ : ArrayFixed RANK) idx c := by
  unfold GeneralArray.bracket ArrayFixed.bracket GeneralArray.rank
    ArrayFixed.rank
  rw [hd]

/-- Witness for C9: rank 2, concrete memory, dopes and index. -/
theorem C9_witness :
    ([Dope.mk 0 3 4, Dope.mk 0 4 1].length = 2)
    ∧ ([(1 : Int), 2].length = 2)
    ∧ GeneralArray.bracket ⟨⟨0, 96⟩, [⟨0, 3, 4⟩, ⟨0, 4, 1⟩], 8⟩ [1, 2] true
        = ArrayFixed.bracket
            (⟨⟨0, 96⟩, [⟨0, 3, 4⟩, ⟨0, 4, 1⟩], 8⟩ : ArrayFixed 2)
            [1, 2] true :=
  ⟨rfl, rfl, C9_general_fixed_same_algorithm ⟨0, 96⟩
    [⟨0, 3, 4⟩, ⟨0, 4, 1⟩] 8 [1, 2] true rfl rfl⟩

-- ---------------------------------------------------------------------
-- C7: the offset is order-independent
-- ---------------------------------------------------------------------

/-- The range-indexed sum of `index_diff` equals the sum over the zipped
(dope, index) list of `index * stride`. -/
theorem zip_sum_getD (dopes : List Dope) (idx : List Int)
    (h : idx.length = dopes.length) :
    ((dopes.zip idx).map (fun p => p.2 * p.1.stride)).sum
      = ∑ i in Finset.range dopes.length,
          idx.getD i 0 * (dopes.getD i default).stride := by
  induction dopes generalizing idx with
  | nil => simp
  | cons d ds ih =>
    cases idx with
    | nil => simp at h
    | cons x xs =>
      have hx : xs.length = ds.length := by simpa using h
      simp only [List.zip_cons_cons, List.map_cons, List.sum_cons,
        List.length_cons]
      rw [Finset.sum_range_succ']
      simp only [List.getD_cons_succ, List.getD_cons_zero]
      rw [← ih xs hx]
      ring

/-- With checking off, `index_diff` over full-length sequences is the
sum over the zipped (dope, index) pairs of `index * stride`. -/
theorem index_diff_eq_zip_sum (dopes : List Dope) (idx : List Int)
    (rank : Nat) (hd : dopes.length = rank) (hi : idx.length = rank) :
    (index_diff dopes idx rank false).1
      = ((dopes.zip idx).map (fun p => p.2 * p.1.stride)).sum := by
  subst hd
  rw [index_diff_fst, zip_sum_getD dopes idx hi]

/-- **C7.** The offset computation is order-independent: for every dope
sequence, index vector of matching length, and permutation of the
dimensions (a permutation of the paired (dope, index) sequence),
`index_diff` with no checking on the permuted data returns the same
offset as on the originals. -/
theorem C7_index_diff_perm_invariant (rank : Nat)
    (dopes dopes2 : List Dope) (idx idx2 : List Int)
    (hd : dopes.length = rank) (hi : idx.length = rank)
    (hd2 : dopes2.length = rank) (hi2 : idx2.length = rank)
    (hperm : List.Perm (dopes.zip idx) (dopes2.zip idx2)) :
    (index_diff dopes idx rank false).1
      = (index_diff dopes2 idx2 rank false).1 := by
  rw [index_diff_eq_zip_sum dopes idx rank hd hi,
      index_diff_eq_zip_sum dopes2 idx2 rank hd2 hi2]
  exact List.Perm.sum_eq (hperm.map _)

/-- Witness for C7: transposing the rank-2 example (swapping both dopes
and index entries) leaves the offset unchanged. -/
theorem C7_witness :
    List.Perm ([Dope.mk 0 3 4, Dope.mk 0 4 1].zip [(1 : Int), 2])
      ([Dope.mk 0 4 1, Dope.mk 0 3 4].zip [(2 : Int), 1])
    ∧ (index_diff [Dope.mk 0 3 4, Dope.mk 0 4 1] [1, 2] 2 false).1
        = (index_diff [Dope.mk 0 4 1, Dope.mk 0 3 4] [2, 1] 2 false).1 :=
  ⟨by decide, C7_index_diff_perm_invariant 2
    [Dope.mk 0 3 4, Dope.mk 0 4 1] [Dope.mk 0 4 1, Dope.mk 0 3 4]
    [1, 2] [2, 1] rfl rfl rfl rfl (by decide)⟩

-- ---------------------------------------------------------------------
-- C6: slicing (spec-modelled; src/ contains no slice operation)
-- ---------------------------------------------------------------------

/-- Reading the written position gives the written value. -/
theorem getD_set_self {α : Type} (l : List α) (i : Nat) (v d : α)
    (h : i < l.length) : (l.set i v).getD i d = v := by
  induction l generalizing i with
  | nil => simp at h
  | cons a as ih =>
    cases i with
    | zero => rfl
    | succ n =>
      simp only [List.set_cons_succ, List.getD_cons_succ]
      exact ih n (by simpa using h)

/-- Reading any other position is unaffected by `set`. -/
theorem getD_set_ne {α : Type} (l : List α) (i j : Nat) (v d : α)
    (h : i ≠ j) : (l.set i v).getD j d = l.getD j d := by
  induction l generalizing i j with
  | nil => simp
  | cons a as ih =>
    cases i with
    | zero =>
      cases j with
      | zero => exact absurd rfl h
      | succ m => simp [List.set_cons_zero, List.getD_cons_succ]
    | succ n =>
      cases j with
      | zero => rfl
      | succ m =>
        simp only [List.set_cons_succ, List.getD_cons_succ]
        exact ih n m (by omega)

/-- Modelled from the spec: the repository source under src/ contains no
`slice` operation (the spec alone describes it).  Per the spec,
`slice(dimension, new_low, new_high)` keeps the dimension's stride
unchanged, rebases its local index range to `[0, new_high - new_low)`,
and shifts the derived view's effective base offset by
`new_low * old_stride`; the result here is the new dope sequence paired
with that base-offset shift. -/
def slice_layout (dopes : List Dope) (d : Nat) (new_low new_high : Int) :
    List Dope × Int :=
  (dopes.set d ⟨0, new_high - new_low, (dopes.getD d default).stride⟩,
   new_low * (dopes.getD d default).stride)

/-- **C6.** Slicing dimension `d` to `[new_low, new_high)` (with
`low ≤ new_low ≤ new_high ≤ high`) leaves that dimension's stride
unchanged and shifts the view's effective base offset by
`new_low * old_stride`, so that for every index vector whose local entry
`k` at dimension `d` lies in `[0, new_high - new_low)`, the sliced view
addresses the same element as the original view at `new_low + k` in that
dimension. -/
theorem C6_slice_addressing (dopes : List Dope) (d : Nat)
    (new_low new_high : Int) (idx : List Int)
    (hd : d < dopes.length) (hlen : idx.length = dopes.length)
    (h1 : (dopes.getD d default).low ≤ new_low)
    (h2 : new_low ≤ new_high)
    (h3 : new_high ≤ (dopes.getD d default).high)
    (hk0 : 0 ≤ idx.getD d 0)
    (hk1 : idx.getD d 0 < new_high - new_low) :
    ((slice_layout dopes d new_low new_high).1.getD d default).stride
        = (dopes.getD d default).stride
    ∧ (slice_layout dopes d new_low new_high).2
        + (index_diff (slice_layout dopes d new_low new_high).1 idx
            dopes.length false).1
      = (index_diff dopes (idx.set d (new_low + idx.getD d 0))
          dopes.length false).1 := by
  constructor
  · simp only [slice_layout]
    rw [getD_set_self _ _ _ _ hd]
  · rw [index_diff_fst, index_diff_fst]
    have hsplit : ∀ j ∈ Finset.range dopes.length,
        (idx.set d (new_low + idx.getD d 0)).getD j 0
            * (dopes.getD j default).stride
          = idx.getD j 0
              * ((slice_layout dopes d new_low new_high).1.getD j default).stride
            + (if j = d then new_low * (dopes.getD d default).stride
               else 0) := by
      intro j hj
      simp only [slice_layout]
      by_cases hjd : j = d
      · subst hjd
        rw [getD_set_self idx _ _ _ (by omega), getD_set_self dopes _ _ _ hd]
        simp only [eq_self_iff_true, if_true]
        ring
      · rw [getD_set_ne idx _ _ _ _ (fun hh => hjd hh.symm),
          getD_set_ne dopes _ _ _ _ (fun hh => hjd hh.symm)]
        simp [hjd]
    rw [Finset.sum_congr rfl hsplit, Finset.sum_add_distrib,
      Finset.sum_ite_eq' (Finset.range dopes.length) d
        (fun _ => new_low * (dopes.getD d default).stride),
      if_pos (Finset.mem_range.mpr hd)]
    simp only [slice_layout]
    ring

/-- Witness for C6, at the spec's scenario 2: rank-1 layout `[0,10)`
with stride 1, sliced to `[2,10)`; local index 0 addresses the element
the original addresses at index 2. -/
theorem C6_witness :
    (0 < [Dope.mk 0 10 1].length)
    ∧ (((slice_layout [Dope.mk 0 10 1] 0 2 10).1.getD 0 default).stride
        = ((Dope.mk 0 10 1 : Dope)).stride)
    ∧ ((slice_layout [Dope.mk 0 10 1] 0 2 10).2
        + (index_diff (slice_layout [Dope.mk 0 10 1] 0 2 10).1 [0] 1 false).1
      = (index_diff [Dope.mk 0 10 1] [2] 1 false).1) := by
  refine ⟨by decide, ?_⟩
  have h := C6_slice_addressing [Dope.mk 0 10 1] 0 2 10 [0]
    (by decide) (by decide) (by decide) (by decide) (by decide)
    (by decide) (by decide)
  exact ⟨h.1, h.2⟩

-- ---------------------------------------------------------------------
-- C8: transfer_const
-- ---------------------------------------------------------------------

/-- A model of the C++ type expressions involved in `transfer_const`:
primitive types, const-qualified types, and the class template
`std::conditional<B, T, F>` AS A TYPE (i.e. the class itself, which is
distinct from its `::type` member). -/
inductive CppType where
  | prim : String → CppType
  | constQ : CppType → CppType
  | conditional : Bool → CppType → CppType → CppType
deriving DecidableEq, Repr

/-- `std::is_const<T>::value`. -/
def is_const : CppType → Bool
  | .constQ _ => true
  | _ => false

/-- `std::add_const<T>::type` (idempotent on const types, as in C++). -/
def add_const (t : CppType) : CppType :=
  if is_const t then t else .constQ t

/-- `std::remove_const<T>::type`. -/
def remove_const : CppType → CppType
  | .constQ t => t
  | t => t

/-- `std::conditional<B, T, F>::type` — the `::type` member the source
never projects. -/
def conditional_type (b : Bool) (t f : CppType) : CppType :=
  if b then t else f

/-- `transfer_const<DestT, SrcT>::type` as the source writes it (lines
46–53), with the missing comma between the two branch arguments
restored: `typedef std::conditional<is_const<SrcT>::value,
add_const<DestT>::type, remove_const<DestT>::type> type;` — note the
`typedef` names the `std::conditional` class itself; the `::type`
projection is missing, so the result is the `conditional` class type,
never a const-qualified `DestT`. -/
def transfer_const_type (dest src : CppType) : CppType :=
  .conditional (is_const src) (add_const dest) (remove_const dest)

/-- What the struct's own documentation promises:
`transfer_const<double, char const>::type == double const`,
`transfer_const<double, char>::type == double`. -/
def transfer_const_doc (dest src : CppType) : CppType :=
  if is_const src then add_const dest else remove_const dest

/-- **C8.** The claim (and the struct's own doc comment) says
`transfer_const<DestT, SrcT>::type` is the const-qualified `DestT`
exactly when `SrcT` is const-qualified.  The code's typedef omits the
`::type` projection of `std::conditional` (and a comma between its
branch arguments), so at the doc's own example
`transfer_const<double, char const>` the member `type` is the class
`std::conditional<true, double const, double>`, which is not
const-qualified and differs from `double const`; the doc-promised result
would have been `double const`. -/
theorem C8_transfer_const_broken :
    transfer_const_type (.prim "double") (.constQ (.prim "char"))
      = .conditional true (.constQ (.prim "double")) (.prim "double")
    ∧ transfer_const_type (.prim "double") (.constQ (.prim "char"))
      ≠ .constQ (.prim "double")
    ∧ is_const (transfer_const_type (.prim "double")
        (.constQ (.prim "char"))) = false
    ∧ is_const (.constQ (.prim "char")) = true
    ∧ transfer_const_doc (.prim "double") (.constQ (.prim "char"))
      = .constQ (.prim "double") := by
  decide
